import Mathlib

/-!
# github_doc_agent frontend: a shallow embedding and its properties

The development follows the four source files

* `frontend/src/components/RepoInput.jsx`   (URL validation, `handleSubmit`)
* `frontend/src/services/api.js`            (`generateDocumentation`)
* `frontend/src/App.jsx`                    (UI state, `toggleDarkMode`,
                                             `handleGenerateDocumentation`)
* `frontend/src/components/DocumentationViewer.jsx` (`downloadMarkdown`, the `code` renderer)

JavaScript strings are modelled by `String`; every pattern used by the program only
accepts ASCII characters, so the difference between UTF-16 code units and code
points never decides a match.
-/

namespace GithubDocAgent

/-! ## Regular expressions (the fragment the program uses) -/

/-- The regular-expression fragment occurring in the sources: string literals,
one character of a class, sequencing, a greedy `+` over a class, a greedy `?`,
and a capture group. -/
inductive RE where
  | lit : List Char → RE
  | cls : (Char → Bool) → RE
  | seq : RE → RE → RE
  | plus : (Char → Bool) → RE
  | opt : RE → RE
  | group : RE → RE

/-- Remainders left by `[class]+` on an input, in backtracking order (greedy:
the longest run first, then each shorter non-empty run). -/
def plusRests (p : Char → Bool) : List Char → List (List Char)
  | [] => []
  | c :: cs => if p c then plusRests p cs ++ [cs] else []

/-- Backtracking matcher anchored at the start of the input: every way the
expression can match a prefix, as (captures, remainder), in the priority order
of a backtracking engine. -/
def matchRE : RE → List Char → List (List (List Char) × List Char)
  | .lit cs, s => if cs.isPrefixOf s then [([], s.drop cs.length)] else []
  | .cls p, s =>
    match s with
    | [] => []
    | c :: rest => if p c then [([], rest)] else []
  | .seq a b, s =>
    (matchRE a s).flatMap fun x => (matchRE b x.2).map fun y => (x.1 ++ y.1, y.2)
  | .plus p, s => (plusRests p s).map fun r => ([], r)
  | .opt a, s => matchRE a s ++ [([], s)]
  | .group a, s =>
    (matchRE a s).map fun x => (s.take (s.length - x.2.length) :: x.1, x.2)

/-- The method `RegExp.prototype.test` for a pattern written `/^ ... $/`: some way
of matching consumes the whole input. -/
def testAnchored (re : RE) (s : String) : Bool :=
  (matchRE re s.toList).any fun x => x.2.isEmpty

/-- The method `RegExp.prototype.exec` for an unanchored pattern: the captures of
the first match at the leftmost start position, or `none` (JavaScript `null`). -/
def execSearch (re : RE) : List Char → Option (List (List Char))
  | [] => (matchRE re []).head?.map Prod.fst
  | c :: cs =>
    match matchRE re (c :: cs) with
    | x :: _ => some x.1
    | [] => execSearch re cs

/-- The class `\w` of a pattern without the `u`/`i` flags: `[A-Za-z0-9_]`. -/
def isWordChar (c : Char) : Bool := c.isAlphanum || c == '_'

/-- The class `[\w-]`. -/
def isWordOrHyphen (c : Char) : Bool := isWordChar c || c == '-'

/-! ## `RepoInput.jsx` -/

/-- The text `https://github.com/` the pattern starts with. -/
def githubPrefix : List Char := "https://github.com/".toList

/-- The pattern of `validateGitHubUrl` with the segment class left open:
`/^https:\/\/github\.com\/[C]+\/[C]+\/?$/`. -/
def repoUrlPattern (segment : Char → Bool) : RE :=
  .seq (.lit githubPrefix)
    (.seq (.plus segment) (.seq (.lit ['/']) (.seq (.plus segment) (.opt (.lit ['/'])))))

/-- The function `validateGitHubUrl`:
`/^https:\/\/github\.com\/[\w-]+\/[\w-]+\/?$/.test(url)`. -/
def validateGitHubUrl (url : String) : Bool :=
  testAnchored (repoUrlPattern isWordOrHyphen) url

/-- The shape a URL has according to the prose: the GitHub prefix, an owner
segment, a slash, a repo segment, an optional single trailing slash, both
segments non-empty and made of characters of the class `segment`. -/
def RepoUrlShape (segment : Char → Bool) (url : String) : Prop :=
  ∃ owner repo : List Char,
    owner ≠ [] ∧ repo ≠ [] ∧ (∀ c ∈ owner, segment c = true) ∧ (∀ c ∈ repo, segment c = true) ∧
    (url.toList = githubPrefix ++ owner ++ ['/'] ++ repo ∨
     url.toList = githubPrefix ++ owner ++ ['/'] ++ repo ++ ['/'])

/-- Local state of the `RepoInput` component: the two `useState` cells. -/
structure RepoInputState where
  repoUrl : String
  error : String
  deriving DecidableEq

/-- The validation text `handleSubmit` stores when the URL is rejected. -/
def validationMessage : String :=
  "Please enter a valid GitHub repository URL (e.g., https://github.com/username/repo)"

/-- The handler `handleSubmit`: the new local state and the arguments of the calls
made to the `onSubmit` prop, in order. -/
def handleSubmit (st : RepoInputState) : RepoInputState × List String :=
  let st1 := { st with error := "" }
  if !validateGitHubUrl st.repoUrl then
    ({ st1 with error := validationMessage }, [])
  else
    (st1, [st.repoUrl])

/-! ## `services/api.js` -/

/-- The JavaScript values a field of a response body can hold, as far as truthiness
and string conversion are concerned; `undefined` is what reading an absent field
gives. A number carries whether it is one of the falsy numbers (`0`, `-0`, `NaN`)
and the text its string conversion yields (a floating-point rendering, taken as
given); an object or array carries the text its string conversion yields. -/
inductive JSVal where
  | undefined : JSVal
  | null : JSVal
  | bool : Bool → JSVal
  | num (falsy : Bool) (rendered : String) : JSVal
  | str : String → JSVal
  | object : String → JSVal
  deriving DecidableEq

/-- Truthiness (`ToBoolean`). -/
def JSVal.truthy : JSVal → Bool
  | .undefined => false
  | .null => false
  | .bool b => b
  | .num falsy _ => !falsy
  | .str s => s != ""
  | .object _ => true

/-- String conversion (`ToString`), as applied by `new Error(message)`. -/
def JSVal.toStr : JSVal → String
  | .undefined => "undefined"
  | .null => "null"
  | .bool b => if b then "true" else "false"
  | .num _ rendered => rendered
  | .str s => s
  | .object rendered => rendered

/-- The operator `a || b`. -/
def JSVal.or (a b : JSVal) : JSVal := if a.truthy then a else b

/-- The three documentation texts of a generation result. -/
structure Documentation where
  beginner : String
  intermediate : String
  advanced : String
  deriving DecidableEq

/-- A response body that is not `null` or `undefined`, read through its two fields
`documentation` and `repo_name`; `documentation` is `none` when the field is `null`
or absent. The program stores both fields without inspecting them. -/
structure GenerationResult where
  documentation : Option Documentation
  repo_name : String
  deriving DecidableEq

/-- The value `response.data` of a fulfilled request. Reading a property of `null`
or `undefined` raises a `TypeError`; such a body carries the message text the
engine gives that error, which depends on the engine and on the property read. -/
inductive ResponseBody where
  | nullish (typeErrorMessage : String) : ResponseBody
  | object (result : GenerationResult) : ResponseBody
  deriving DecidableEq

/-- The value `error.response.data` of a request answered with an error status:
`null` or `undefined` (carrying the message text of the `TypeError` that reading
`.detail` raises), or a value whose property `detail` reads as the given value
(`undefined` when there is no such field). -/
inductive ErrorBody where
  | nullish (typeErrorMessage : String) : ErrorBody
  | withDetail (detail : JSVal) : ErrorBody
  deriving DecidableEq

/-- A request handed to the HTTP library. -/
structure HttpRequest where
  method : String
  url : String
  body : List (String × String)
  deriving DecidableEq

/-- The constant `API_BASE_URL`: `import.meta.env.VITE_API_URL || 'http://localhost:8000'`. -/
def API_BASE_URL (viteApiUrl : Option String) : String :=
  match viteApiUrl with
  | some v => if v != "" then v else "http://localhost:8000"
  | none => "http://localhost:8000"

/-- The requests `generateDocumentation(repoUrl)` issues before it suspends:
`axios.post(API_BASE_URL + '/api/v1/generate', { repo_url: repoUrl })`. -/
def generateDocumentationRequests (base : String) (repoUrl : String) : List HttpRequest :=
  [{ method := "POST", url := base ++ "/api/v1/generate", body := [("repo_url", repoUrl)] }]

/-- How the awaited `axios.post` settles, as seen by the `catch` block: fulfilled
with a body, rejected with `error.response` set (carrying `error.response.data`),
rejected with only `error.request` set, or rejected with neither (carrying
`error.message`). -/
inductive AxiosOutcome where
  | fulfilled : ResponseBody → AxiosOutcome
  | rejectedWithResponse : ErrorBody → AxiosOutcome
  | rejectedNoResponse : AxiosOutcome
  | rejectedOther : String → AxiosOutcome
  deriving DecidableEq

/-- The part of `generateDocumentation` after the `await`: the returned body, or
the message of the error thrown. With an error response, reading
`error.response.data.detail` of a `null` or `undefined` body raises a `TypeError`
inside the `catch` block, which leaves the function instead of the `Error` built
from `detail || 'Server error'`. -/
def generateDocumentationSettle : AxiosOutcome → Except String ResponseBody
  | .fulfilled data => .ok data
  | .rejectedWithResponse (.nullish typeErrorMessage) => .error typeErrorMessage
  | .rejectedWithResponse (.withDetail detail) =>
    .error (detail.or (.str "Server error")).toStr
  | .rejectedNoResponse => .error "No response from server. Is the backend running?"
  | .rejectedOther message => .error message

/-! ## `App.jsx` -/

/-- The `useState` cells of `App`. -/
structure AppState where
  isLoading : Bool
  documentation : Option Documentation
  error : Option String
  repoName : String
  backendHealth : Bool
  isDarkMode : Bool
  deriving DecidableEq

/-- The initial values of the `useState` cells. -/
def AppState.initial : AppState :=
  { isLoading := false, documentation := none, error := none, repoName := "",
    backendHealth := false, isDarkMode := false }

/-- The browser storage `localStorage`: keys with their stored strings. -/
abbrev Storage := List (String × String)

/-- The call `localStorage.getItem(key)`. -/
def Storage.getItem (ls : Storage) (key : String) : Option String :=
  match ls with
  | [] => none
  | (k, v) :: rest => if k == key then some v else Storage.getItem rest key

/-- The call `localStorage.setItem(key, value)`. -/
def Storage.setItem (ls : Storage) (key value : String) : Storage :=
  match ls with
  | [] => [(key, value)]
  | (k, v) :: rest =>
    if k == key then (k, value) :: rest else (k, v) :: Storage.setItem rest key value

/-- The method `Boolean.prototype.toString`. -/
def boolToString (b : Bool) : String := if b then "true" else "false"

/-- The effect that loads the preference at startup:
`localStorage.getItem('darkMode') === 'true'`. -/
def loadDarkMode (ls : Storage) : Bool := ls.getItem "darkMode" == some "true"

/-- The handler `toggleDarkMode`, run on the state of the latest render. -/
def toggleDarkMode (s : AppState) (ls : Storage) : AppState × Storage :=
  let newDarkMode := !s.isDarkMode
  ({ s with isDarkMode := newDarkMode }, ls.setItem "darkMode" (boolToString newDarkMode))

/-- The part of `handleGenerateDocumentation` before the `await`: the three state
updates, and the arguments of the calls made to `generateDocumentation`. -/
def handleGenerateDocumentationBegin (s : AppState) (repoUrl : String) : AppState × List String :=
  ({ s with isLoading := true, error := none, documentation := none }, [repoUrl])

/-- The part of `handleGenerateDocumentation` after the `await` (`try` body or
`catch`, then `finally`), committed as one batch of state updates. When the
awaited result is `null` or `undefined`, reading `result.documentation` raises a
`TypeError` inside the `try`, before any cell is set, and the `catch` stores its
message. -/
def handleGenerateDocumentationSettle (s : AppState) (r : Except String ResponseBody) :
    AppState :=
  match r with
  | .ok (.object result) =>
    { s with documentation := result.documentation, repoName := result.repo_name,
             isLoading := false }
  | .ok (.nullish typeErrorMessage) =>
    { s with error := some typeErrorMessage, isLoading := false }
  | .error message => { s with error := some message, isLoading := false }

/-- The condition under which `App` renders `RepoInput`: `!isLoading && !documentation`. -/
def formRendered (s : AppState) : Bool := !s.isLoading && s.documentation.isNone

/-- One submit of the form inside `App`: `handleSubmit`, whose `onSubmit` calls run
`handleGenerateDocumentation`, whose calls to `generateDocumentation` issue requests.
Returns the form state, the root state, the URLs passed to `generateDocumentation`
and the requests issued. -/
def submitAction (base : String) (app : AppState) (st : RepoInputState) :
    RepoInputState × AppState × List String × List HttpRequest :=
  let r := handleSubmit st
  let out := r.2.foldl
    (fun (acc : AppState × List String) u =>
      let b := handleGenerateDocumentationBegin acc.1 u
      (b.1, acc.2 ++ b.2))
    (app, [])
  (r.1, out.1, out.2, out.2.flatMap (generateDocumentationRequests base))

/-- The page: root state, form state, storage, the URLs of the generation calls
still outstanding, and the log of requests issued since the page was loaded. -/
structure Page where
  app : AppState
  form : RepoInputState
  storage : Storage
  pending : List String
  requests : List HttpRequest
  deriving DecidableEq

/-- What can happen to the page. -/
inductive Event where
  | type : String → Event
  | submit : Event
  | settle : Nat → AxiosOutcome → Event
  | health : Bool → Event
  | toggleDark : Event
  | reload : Event
  deriving DecidableEq

/-- A freshly mounted form. -/
def RepoInputState.initial : RepoInputState := { repoUrl := "", error := "" }

/-- The page right after loading: the initial cells, then the startup effect that
reads the dark-mode preference. -/
def Page.load (ls : Storage) : Page :=
  { app := { AppState.initial with isDarkMode := loadDarkMode ls },
    form := RepoInputState.initial, storage := ls, pending := [], requests := [] }

/-- One step of the page. Typing and submitting need the form to be rendered; a
settle step needs the outstanding call it names; a form that was not rendered
is mounted afresh when it is rendered again. -/
def step (base : String) (p : Page) : Event → Option Page
  | .type text =>
    if formRendered p.app then some { p with form := { p.form with repoUrl := text } } else none
  | .submit =>
    if formRendered p.app then
      let r := submitAction base p.app p.form
      some { p with
        app := r.2.1,
        form := if formRendered r.2.1 then r.1 else RepoInputState.initial,
        pending := p.pending ++ r.2.2.1,
        requests := p.requests ++ r.2.2.2 }
    else none
  | .settle i outcome =>
    if i < p.pending.length then
      let app := handleGenerateDocumentationSettle p.app (generateDocumentationSettle outcome)
      some { p with
        app := app,
        form := if formRendered p.app then p.form else RepoInputState.initial,
        pending := p.pending.eraseIdx i }
    else none
  | .health ok => some { p with app := { p.app with backendHealth := ok } }
  | .toggleDark =>
    let r := toggleDarkMode p.app p.storage
    some { p with app := r.1, storage := r.2 }
  | .reload => some (Page.load p.storage)

/-- Runs a sequence of events; `none` when one of them is not possible. -/
def run (base : String) (p : Page) : List Event → Option Page
  | [] => some p
  | e :: es => (step base p e).bind fun q => run base q es

/-- The pages reachable from a freshly loaded page. -/
def Reachable (base : String) (p : Page) : Prop :=
  ∃ ls es, run base (Page.load ls) es = some p

/-! ## `DocumentationViewer.jsx` -/

/-- The three tab ids. -/
inductive Tier where
  | beginner
  | intermediate
  | advanced
  deriving DecidableEq

/-- The `id` of a tab. -/
def Tier.id : Tier → String
  | .beginner => "beginner"
  | .intermediate => "intermediate"
  | .advanced => "advanced"

/-- The lookup `documentation[level]`. -/
def Documentation.get (d : Documentation) : Tier → String
  | .beginner => d.beginner
  | .intermediate => d.intermediate
  | .advanced => d.advanced

/-- The file a download materialises: the parts of the `Blob` and the `download`
attribute of the anchor. -/
structure Download where
  content : String
  mimeType : String
  filename : String
  deriving DecidableEq

/-- The function `downloadMarkdown(level)` of a viewer with props `documentation`
and `repoName`. -/
def downloadMarkdown (documentation : Documentation) (repoName : String) (level : Tier) :
    Download :=
  { content := documentation.get level, mimeType := "text/markdown",
    filename := repoName ++ "-" ++ level.id ++ "-docs.md" }

/-- A mounted viewer: its two data props and its `activeTab` cell. -/
structure ViewerState where
  documentation : Documentation
  repoName : String
  activeTab : Tier
  deriving DecidableEq

/-- A viewer as mounted: `useState('beginner')`. -/
def ViewerState.mount (d : Documentation) (n : String) : ViewerState :=
  { documentation := d, repoName := n, activeTab := .beginner }

/-- The two buttons of the viewer that act on it. -/
inductive ViewerEvent where
  | setActiveTab : Tier → ViewerEvent
  | download : ViewerEvent
  deriving DecidableEq

/-- One click: the new viewer state and the files emitted. -/
def viewerStep (v : ViewerState) : ViewerEvent → ViewerState × List Download
  | .setActiveTab t => ({ v with activeTab := t }, [])
  | .download => (v, [downloadMarkdown v.documentation v.repoName v.activeTab])

/-- A sequence of clicks: the final viewer state and every file emitted. -/
def viewerRun (v : ViewerState) : List ViewerEvent → ViewerState × List Download
  | [] => (v, [])
  | e :: es =>
    let r := viewerStep v e
    let rest := viewerRun r.1 es
    (rest.1, r.2 ++ rest.2)

/-- The props the markdown renderer passes to the `code` component. -/
structure CodeProps where
  inline : Bool
  className : Option String
  children : String
  deriving DecidableEq

/-- What the `code` component returns. -/
inductive CodeElement where
  | syntaxHighlighter (dark : Bool) (language : String) (text : String)
  | code (className : Option String) (children : String)
  deriving DecidableEq

/-- The pattern `/language-(\w+)/`. -/
def languagePattern : RE :=
  .seq (.lit "language-".toList) (.group (.plus isWordChar))

/-- The call `String(children).replace(/\n$/, '')`: drops one final line feed. -/
def stripFinalNewline (s : String) : String :=
  match s.toList.reverse with
  | '\n' :: rest => String.mk rest.reverse
  | _ => s

/-- The `code` component: `/language-(\w+)/.exec(className || '')`, then the
highlighter keyed by `match[1]` when the block is not inline and the pattern
matched, a plain `code` element otherwise. -/
def codeRenderer (isDarkMode : Bool) (p : CodeProps) : CodeElement :=
  match execSearch languagePattern (p.className.getD "").toList with
  | some caps =>
    if !p.inline then
      .syntaxHighlighter isDarkMode (String.mk (caps.headD [])) (stripFinalNewline p.children)
    else .code p.className p.children
  | none => .code p.className p.children

/-- The `error` cell after a whole run of `handleGenerateDocumentation` whose
request settled with the given outcome: the message shown in the error banner. -/
def surfacedError (s : AppState) (repoUrl : String) (outcome : AxiosOutcome) : Option String :=
  (handleGenerateDocumentationSettle (handleGenerateDocumentationBegin s repoUrl).1
    (generateDocumentationSettle outcome)).error

/-- The invariant of the page: a loading page shows no documentation, and the
number of outstanding calls is one while loading and zero otherwise. -/
def PageInv (p : Page) : Prop :=
  (p.app.isLoading = true → p.app.documentation = none) ∧
  p.pending.length = (if p.app.isLoading then 1 else 0)

/-! ## Semantics of the matcher -/

/-- The language of an expression: the words it matches. -/
def Lang : RE → List Char → Prop
  | .lit cs, w => w = cs
  | .cls p, w => ∃ c, p c = true ∧ w = [c]
  | .seq a b, w => ∃ u v, Lang a u ∧ Lang b v ∧ w = u ++ v
  | .plus p, w => w ≠ [] ∧ ∀ c ∈ w, p c = true
  | .opt a, w => w = [] ∨ Lang a w
  | .group a, w => Lang a w

theorem mem_plusRests (p : Char → Bool) (s r : List Char) :
    r ∈ plusRests p s ↔ ∃ w, w ≠ [] ∧ (∀ c ∈ w, p c = true) ∧ s = w ++ r := by
  induction s with
  | nil =>
    simp only [plusRests, List.not_mem_nil, false_iff]
    rintro ⟨w, hne, -, heq⟩
    exact hne (List.append_eq_nil.mp heq.symm).1
  | cons c cs ih =>
    by_cases hc : p c = true
    · simp only [plusRests, hc, if_true, List.mem_append, List.mem_singleton, ih]
      constructor
      · rintro (⟨w, -, hw, rfl⟩ | rfl)
        · exact ⟨c :: w, by simp, by simpa [hc] using hw, rfl⟩
        · exact ⟨[c], by simp, by simp [hc], rfl⟩
      · rintro ⟨w, hne, hw, heq⟩
        cases w with
        | nil => exact absurd rfl hne
        | cons d ds =>
          simp only [List.cons_append, List.cons.injEq] at heq
          obtain ⟨rfl, rfl⟩ := heq
          cases ds with
          | nil => right; rfl
          | cons e es =>
            left
            exact ⟨e :: es, by simp, fun x hx => hw x (List.mem_cons_of_mem _ hx), rfl⟩
    · simp only [plusRests, hc, Bool.false_eq_true, if_false, List.not_mem_nil, false_iff]
      rintro ⟨w, hne, hw, heq⟩
      cases w with
      | nil => exact hne rfl
      | cons d ds =>
        simp only [List.cons_append, List.cons.injEq] at heq
        obtain ⟨rfl, -⟩ := heq
        exact hc (hw _ (List.mem_cons_self _ _))

/-- Soundness and completeness of the matcher with respect to the language: the
remainders it returns are exactly the suffixes left by a matched prefix. -/
theorem matchRE_rest (re : RE) (s r : List Char) :
    (∃ caps, (caps, r) ∈ matchRE re s) ↔ ∃ w, Lang re w ∧ s = w ++ r := by
  induction re generalizing s r with
  | lit cs =>
    simp only [matchRE, Lang]
    constructor
    · rintro ⟨caps, h⟩
      split at h
      · rename_i hp
        simp only [List.mem_singleton, Prod.mk.injEq] at h
        obtain ⟨t, rfl⟩ := List.isPrefixOf_iff_prefix.mp hp
        refine ⟨cs, rfl, ?_⟩
        rw [h.2]; simp
      · simp at h
    · rintro ⟨w, rfl, rfl⟩
      refine ⟨[], ?_⟩
      have : w.isPrefixOf (w ++ r) = true := List.isPrefixOf_iff_prefix.mpr (List.prefix_append _ _)
      simp [this]
  | cls p =>
    cases s with
    | nil =>
      simp only [matchRE, Lang, List.not_mem_nil, exists_false, false_iff]
      rintro ⟨w, ⟨d, -, rfl⟩, heq⟩
      simp at heq
    | cons c cs =>
      simp only [matchRE, Lang]
      constructor
      · rintro ⟨caps, h⟩
        split at h
        · rename_i hp
          simp only [List.mem_singleton, Prod.mk.injEq] at h
          exact ⟨[c], ⟨c, hp, rfl⟩, by simp [h.2]⟩
        · simp at h
      · rintro ⟨w, ⟨d, hd, rfl⟩, heq⟩
        simp only [List.singleton_append, List.cons.injEq] at heq
        obtain ⟨rfl, rfl⟩ := heq
        exact ⟨[], by simp [hd]⟩
  | seq a b iha ihb =>
    simp only [matchRE, Lang, List.mem_flatMap, List.mem_map, Prod.mk.injEq]
    constructor
    · rintro ⟨caps, x, hx, y, hy, -, rfl⟩
      obtain ⟨u, hu, rfl⟩ := (iha s x.2).mp ⟨x.1, hx⟩
      obtain ⟨v, hv, hxv⟩ := (ihb x.2 y.2).mp ⟨y.1, hy⟩
      exact ⟨u ++ v, ⟨u, v, hu, hv, rfl⟩, by rw [hxv]; simp⟩
    · rintro ⟨w, ⟨u, v, hu, hv, rfl⟩, rfl⟩
      obtain ⟨ca, hca⟩ := (iha (u ++ v ++ r) (v ++ r)).mpr ⟨u, hu, by simp⟩
      obtain ⟨cb, hcb⟩ := (ihb (v ++ r) r).mpr ⟨v, hv, rfl⟩
      exact ⟨ca ++ cb, (ca, v ++ r), hca, (cb, r), hcb, rfl, rfl⟩
  | plus p =>
    simp only [matchRE, Lang, List.mem_map, Prod.mk.injEq]
    constructor
    · rintro ⟨caps, x, hx, -, rfl⟩
      obtain ⟨w, hne, hw, rfl⟩ := (mem_plusRests p s x).mp hx
      exact ⟨w, ⟨hne, hw⟩, rfl⟩
    · rintro ⟨w, ⟨hne, hw⟩, rfl⟩
      exact ⟨[], r, (mem_plusRests p _ r).mpr ⟨w, hne, hw, rfl⟩, rfl, rfl⟩
  | opt a iha =>
    simp only [matchRE, Lang, List.mem_append, List.mem_singleton, Prod.mk.injEq]
    constructor
    · rintro ⟨caps, h | ⟨-, rfl⟩⟩
      · obtain ⟨w, hw, rfl⟩ := (iha s r).mp ⟨caps, h⟩
        exact ⟨w, Or.inr hw, rfl⟩
      · exact ⟨[], Or.inl rfl, rfl⟩
    · rintro ⟨w, rfl | hw, rfl⟩
      · exact ⟨[], Or.inr ⟨rfl, rfl⟩⟩
      · obtain ⟨caps, h⟩ := (iha (w ++ r) r).mpr ⟨w, hw, rfl⟩
        exact ⟨caps, Or.inl h⟩
  | group a iha =>
    simp only [matchRE, Lang, List.mem_map, Prod.mk.injEq]
    constructor
    · rintro ⟨caps, x, hx, -, rfl⟩
      exact (iha s x.2).mp ⟨x.1, hx⟩
    · rintro h
      obtain ⟨caps, hc⟩ := (iha s r).mpr h
      exact ⟨_, (caps, r), hc, rfl, rfl⟩

/-- The anchored test decides membership in the language. -/
theorem testAnchored_iff (re : RE) (s : String) :
    testAnchored re s = true ↔ Lang re s.toList := by
  unfold testAnchored
  rw [List.any_eq_true]
  constructor
  · rintro ⟨⟨caps, r⟩, hx, hr⟩
    simp only [List.isEmpty_iff] at hr
    subst hr
    obtain ⟨w, hw, heq⟩ := (matchRE_rest re s.toList []).mp ⟨caps, hx⟩
    simp only [List.append_nil] at heq
    rw [heq]; exact hw
  · intro h
    obtain ⟨caps, hc⟩ := (matchRE_rest re s.toList []).mpr ⟨s.toList, h, by simp⟩
    exact ⟨(caps, []), hc, by simp⟩

/-- The pattern of `validateGitHubUrl` over a segment class accepts exactly the
strings of the prose shape over that class. -/
theorem repoUrlPattern_iff (segment : Char → Bool) (url : String) :
    testAnchored (repoUrlPattern segment) url = true ↔ RepoUrlShape segment url := by
  rw [testAnchored_iff]
  simp only [repoUrlPattern, Lang, RepoUrlShape]
  constructor
  · rintro ⟨u, v, rfl, ⟨o, v2, ⟨hone, ho⟩, ⟨sl, v3, rfl, ⟨rp, t, ⟨hrne, hr⟩, ht, rfl⟩, rfl⟩, rfl⟩, heq⟩
    refine ⟨o, rp, hone, hrne, ho, hr, ?_⟩
    rcases ht with rfl | rfl
    · left; simpa using heq
    · right; simpa using heq
  · rintro ⟨o, rp, hone, hrne, ho, hr, h | h⟩
    · exact ⟨_, _, rfl, ⟨o, _, ⟨hone, ho⟩, ⟨_, _, rfl, ⟨rp, [], ⟨hrne, hr⟩, Or.inl rfl, rfl⟩, rfl⟩, rfl⟩,
        by simpa using h⟩
    · exact ⟨_, _, rfl, ⟨o, _, ⟨hone, ho⟩, ⟨_, _, rfl, ⟨rp, ['/'], ⟨hrne, hr⟩, Or.inr rfl, rfl⟩, rfl⟩,
        rfl⟩, by simpa using h⟩


/-! ## Helper lemmas -/

theorem Storage.getItem_setItem (ls : Storage) (key value : String) :
    Storage.getItem (Storage.setItem ls key value) key = some value := by
  induction ls with
  | nil => simp [Storage.setItem, Storage.getItem]
  | cons kv rest ih =>
    obtain ⟨k, v⟩ := kv
    by_cases hk : (k == key) = true
    · simp [Storage.setItem, Storage.getItem, hk]
    · simp [Storage.setItem, Storage.getItem, hk, ih]

theorem pageInv_load (ls : Storage) : PageInv (Page.load ls) := by
  simp [PageInv, Page.load, AppState.initial]

theorem pageInv_step (base : String) (p q : Page) (e : Event) (hp : PageInv p)
    (h : step base p e = some q) : PageInv q := by
  obtain ⟨h1, h2⟩ := hp
  cases e with
  | type text =>
    simp only [step] at h
    split at h
    · cases h; exact ⟨h1, h2⟩
    · cases h
  | submit =>
    simp only [step] at h
    split at h
    · rename_i hf
      cases h
      have hl : p.app.isLoading = false := by
        simp only [formRendered, Bool.and_eq_true, Bool.not_eq_true'] at hf
        exact hf.1
      rw [hl] at h2
      simp only [Bool.false_eq_true, if_false, List.length_eq_zero] at h2
      by_cases hv : validateGitHubUrl p.form.repoUrl = true
      · simp [PageInv, submitAction, handleSubmit, hv, handleGenerateDocumentationBegin, h2]
      · simp only [Bool.not_eq_true] at hv
        simp [PageInv, submitAction, handleSubmit, hv, hl, h2]
    · cases h
  | settle i outcome =>
    simp only [step] at h
    split at h
    · rename_i hi
      cases h
      have hl : p.app.isLoading = true := by
        by_contra hc
        simp only [Bool.not_eq_true] at hc
        rw [hc] at h2
        simp only [Bool.false_eq_true, if_false] at h2
        omega
      rw [hl] at h2
      simp only [if_true] at h2
      have he : (p.pending.eraseIdx i).length = 0 := by
        rw [List.length_eraseIdx, if_pos hi, h2]
      cases hs : generateDocumentationSettle outcome with
      | error message => simp [PageInv, handleGenerateDocumentationSettle, he]
      | ok body => cases body <;> simp [PageInv, handleGenerateDocumentationSettle, he]
    · cases h
  | health ok =>
    simp only [step] at h
    cases h
    exact ⟨h1, h2⟩
  | toggleDark =>
    simp only [step, toggleDarkMode] at h
    cases h
    exact ⟨h1, h2⟩
  | reload =>
    simp only [step] at h
    cases h
    exact pageInv_load _

theorem pageInv_run (base : String) (es : List Event) (p q : Page) (hp : PageInv p)
    (h : run base p es = some q) : PageInv q := by
  induction es generalizing p with
  | nil =>
    simp only [run, Option.some.injEq] at h
    exact h ▸ hp
  | cons e es ih =>
    simp only [run] at h
    cases hs : step base p e with
    | none => simp [hs] at h
    | some r =>
      simp only [hs, Option.some_bind] at h
      exact ih r (pageInv_step base p r e hp hs) h

theorem pageInv_reachable (base : String) (p : Page) (h : Reachable base p) : PageInv p := by
  obtain ⟨ls, es, hrun⟩ := h
  exact pageInv_run base es _ p (pageInv_load ls) hrun

theorem plusRests_longest (p : Char → Bool) (w rest : List Char) (hne : w ≠ [])
    (hw : ∀ c ∈ w, p c = true) (hrest : ∀ c, rest.head? = some c → p c = false) :
    ∃ tl, plusRests p (w ++ rest) = rest :: tl := by
  have h0 : plusRests p rest = [] := by
    cases rest with
    | nil => rfl
    | cons c cs => simp [plusRests, hrest c rfl]
  induction w with
  | nil => exact absurd rfl hne
  | cons c cs ih =>
    have hc : p c = true := hw c (List.mem_cons_self _ _)
    cases cs with
    | nil => exact ⟨[], by simp [plusRests, hc, h0]⟩
    | cons d ds =>
      obtain ⟨tl, htl⟩ := ih (by simp) (fun x hx => hw x (List.mem_cons_of_mem _ hx))
      refine ⟨tl ++ [d :: ds ++ rest], ?_⟩
      have hstep : plusRests p (c :: (d :: ds ++ rest)) =
          plusRests p (d :: ds ++ rest) ++ [d :: ds ++ rest] := by
        rw [plusRests]; simp [hc]
      rw [List.cons_append, hstep, htl]; simp

theorem execSearch_of_match (re : RE) (s : List Char) (x : List (List Char) × List Char)
    (tl : List (List (List Char) × List Char)) (h : matchRE re s = x :: tl) :
    execSearch re s = some x.1 := by
  cases s with
  | nil => simp [execSearch, h]
  | cons c cs => simp [execSearch, h]

theorem execSearch_languagePattern (w rest : List Char) (hne : w ≠ [])
    (hw : ∀ c ∈ w, isWordChar c = true) (hrest : ∀ c, rest.head? = some c → isWordChar c = false) :
    execSearch languagePattern ("language-".toList ++ (w ++ rest)) = some [w] := by
  obtain ⟨tl, htl⟩ := plusRests_longest isWordChar w rest hne hw hrest
  have hpre : ("language-".toList).isPrefixOf ("language-".toList ++ (w ++ rest)) = true :=
    List.isPrefixOf_iff_prefix.mpr (List.prefix_append _ _)
  have hm : matchRE languagePattern ("language-".toList ++ (w ++ rest)) =
      ([w], rest) :: tl.map (fun r => ([List.take ((w ++ rest).length - r.length) (w ++ rest)], r)) := by
    simp only [languagePattern, matchRE, hpre, if_true, List.drop_left, List.flatMap_cons,
      List.flatMap_nil, List.append_nil, htl, List.map_cons, List.map_map, List.nil_append,
      List.cons.injEq, Prod.mk.injEq, and_true]
    refine ⟨?_, ?_⟩
    · simp
    · apply List.map_congr_left
      intro r _
      simp
  exact execSearch_of_match _ _ _ _ hm


/-! ## Properties of the input form -/

/-- C1: when `validateGitHubUrl` does not accept the typed string, `handleSubmit`
stores the fixed validation text, calls `onSubmit` no time, and the submit as a
whole passes nothing to `generateDocumentation`, issues no request and leaves the
root state as it was. -/
theorem handleSubmit_rejects_locally (base : String) (app : AppState) (st : RepoInputState)
    (h : validateGitHubUrl st.repoUrl = false) :
    (handleSubmit st).1.error = validationMessage ∧
    (handleSubmit st).2 = [] ∧
    (submitAction base app st).2.2.1 = [] ∧
    (submitAction base app st).2.2.2 = [] ∧
    (submitAction base app st).2.1 = app := by
  simp [submitAction, handleSubmit, h]

theorem handleSubmit_rejects_locally_witness :
    validateGitHubUrl "http://github.com/axios/axios" = false ∧
    (handleSubmit ⟨"http://github.com/axios/axios", ""⟩).1.error = validationMessage ∧
    (handleSubmit ⟨"http://github.com/axios/axios", ""⟩).2 = [] ∧
    (submitAction "http://localhost:8000" AppState.initial
      ⟨"http://github.com/axios/axios", ""⟩).2.2.1 = [] ∧
    (submitAction "http://localhost:8000" AppState.initial
      ⟨"http://github.com/axios/axios", ""⟩).2.2.2 = [] ∧
    (submitAction "http://localhost:8000" AppState.initial
      ⟨"http://github.com/axios/axios", ""⟩).2.1 = AppState.initial :=
  ⟨by decide,
   handleSubmit_rejects_locally "http://localhost:8000" AppState.initial
     ⟨"http://github.com/axios/axios", ""⟩ (by decide)⟩

/-- C2: when `validateGitHubUrl` accepts the typed string `u`, one submit calls
`onSubmit` once with `u`, which calls `generateDocumentation` once with `u`, which
issues one POST to the generation endpoint whose body is `repo_url` bound to `u`
itself. -/
theorem submit_issues_one_request (base : String) (app : AppState) (u e : String)
    (h : validateGitHubUrl u = true) :
    (handleSubmit ⟨u, e⟩).2 = [u] ∧
    (submitAction base app ⟨u, e⟩).2.2.1 = [u] ∧
    (submitAction base app ⟨u, e⟩).2.2.2 =
      [{ method := "POST", url := base ++ "/api/v1/generate", body := [("repo_url", u)] }] := by
  simp [submitAction, handleSubmit, h, handleGenerateDocumentationBegin,
    generateDocumentationRequests]

theorem submit_issues_one_request_witness :
    validateGitHubUrl "https://github.com/Expressjs/express/" = true ∧
    (handleSubmit ⟨"https://github.com/Expressjs/express/", ""⟩).2 =
      ["https://github.com/Expressjs/express/"] ∧
    (submitAction "http://localhost:8000" AppState.initial
      ⟨"https://github.com/Expressjs/express/", ""⟩).2.2.1 =
      ["https://github.com/Expressjs/express/"] ∧
    (submitAction "http://localhost:8000" AppState.initial
      ⟨"https://github.com/Expressjs/express/", ""⟩).2.2.2 =
      [{ method := "POST", url := "http://localhost:8000" ++ "/api/v1/generate",
         body := [("repo_url", "https://github.com/Expressjs/express/")] }] :=
  ⟨by decide,
   submit_issues_one_request "http://localhost:8000" AppState.initial
     "https://github.com/Expressjs/express/" "" (by decide)⟩

/-- C3 (as stated, refuted): `validateGitHubUrl` accepts
`https://github.com/a-b/c`, whose owner segment holds a hyphen, so the string is
not of the shape whose segments are word characters only. -/
theorem validateGitHubUrl_accepts_hyphen :
    validateGitHubUrl "https://github.com/a-b/c" = true ∧
    ¬ RepoUrlShape isWordChar "https://github.com/a-b/c" := by
  refine ⟨by decide, fun hshape => ?_⟩
  have ht := (repoUrlPattern_iff isWordChar "https://github.com/a-b/c").mpr hshape
  revert ht
  decide

/-- C3 (amended): `validateGitHubUrl` accepts a string if and only if it is exactly
`https://github.com/`, an owner segment, `/`, a repo segment and an optional single
trailing `/`, where both segments are non-empty and made of word characters or
hyphens. -/
theorem validateGitHubUrl_iff (url : String) :
    validateGitHubUrl url = true ↔ RepoUrlShape isWordOrHyphen url :=
  repoUrlPattern_iff isWordOrHyphen url

/-! ## Properties of the submission controller -/

/-- C4 (as stated, refuted): a failed call whose response body has the `detail`
field present and equal to the empty string surfaces `Server error`, not the
field. -/
theorem surfacedError_empty_detail :
    JSVal.str "" ≠ JSVal.undefined ∧
    surfacedError AppState.initial "https://github.com/axios/axios"
      (.rejectedWithResponse (.withDetail (.str ""))) = some "Server error" ∧
    surfacedError AppState.initial "https://github.com/axios/axios"
      (.rejectedWithResponse (.withDetail (.str ""))) ≠ some "" := by
  decide

/-- C4 (amended): for a failed call with an error response whose body is not `null`
or `undefined`, the surfaced message is the `detail` field itself whenever that
field is a non-empty string, and it is `Server error` whenever the field is absent
or falsy (in general: the string conversion of a truthy `detail`, else
`Server error`). -/
theorem surfacedError_detail (s : AppState) (repoUrl : String) (detail : JSVal) :
    (∀ d, detail = .str d → d ≠ "" →
      surfacedError s repoUrl (.rejectedWithResponse (.withDetail detail)) = some d) ∧
    (detail.truthy = false →
      surfacedError s repoUrl (.rejectedWithResponse (.withDetail detail)) =
        some "Server error") ∧
    surfacedError s repoUrl (.rejectedWithResponse (.withDetail detail)) =
      some (if detail.truthy then detail.toStr else "Server error") := by
  refine ⟨?_, ?_, ?_⟩
  · rintro d rfl hd
    simp [surfacedError, handleGenerateDocumentationSettle, generateDocumentationSettle,
      JSVal.or, JSVal.truthy, JSVal.toStr, hd]
  · intro ht
    simp [surfacedError, handleGenerateDocumentationSettle, generateDocumentationSettle,
      JSVal.or, ht, JSVal.toStr]
  · by_cases ht : detail.truthy = true <;>
      simp [surfacedError, handleGenerateDocumentationSettle, generateDocumentationSettle,
        JSVal.or, ht, JSVal.toStr]

theorem surfacedError_detail_witness :
    surfacedError AppState.initial "https://github.com/axios/axios"
      (.rejectedWithResponse (.withDetail (.str "Repository not found"))) =
      some "Repository not found" ∧
    surfacedError AppState.initial "https://github.com/axios/axios"
      (.rejectedWithResponse (.withDetail .undefined)) = some "Server error" :=
  ⟨(surfacedError_detail AppState.initial "https://github.com/axios/axios"
      (.str "Repository not found")).1 "Repository not found" rfl (by decide),
   (surfacedError_detail AppState.initial "https://github.com/axios/axios"
      .undefined).2.1 rfl⟩

/-- C5 (as stated, refuted): a request answered successfully with the body `null`
ends with the error cell set (to the message of the `TypeError` raised by reading
`result.documentation`), not with `error` equal to null; no documentation is
stored. -/
theorem handleGenerateDocumentation_null_body :
    (handleGenerateDocumentationSettle
      (handleGenerateDocumentationBegin AppState.initial "https://github.com/axios/axios").1
      (generateDocumentationSettle (.fulfilled
        (.nullish "Cannot read properties of null (reading 'documentation')")))).error =
      some "Cannot read properties of null (reading 'documentation')" ∧
    (handleGenerateDocumentationSettle
      (handleGenerateDocumentationBegin AppState.initial "https://github.com/axios/axios").1
      (generateDocumentationSettle (.fulfilled
        (.nullish "Cannot read properties of null (reading 'documentation')")))).error ≠
      none ∧
    (handleGenerateDocumentationSettle
      (handleGenerateDocumentationBegin AppState.initial "https://github.com/axios/axios").1
      (generateDocumentationSettle (.fulfilled
        (.nullish "Cannot read properties of null (reading 'documentation')")))).documentation =
      none := by
  decide

/-- C5 (amended): after a run of `handleGenerateDocumentation` whose request was
answered successfully with a body `r` that is not `null` or `undefined`, the root
state has `documentation` equal to `r.documentation`, `repoName` equal to
`r.repo_name`, no error, and is not loading; the other cells are as before. -/
theorem handleGenerateDocumentation_success (s : AppState) (repoUrl : String)
    (r : GenerationResult) :
    handleGenerateDocumentationSettle (handleGenerateDocumentationBegin s repoUrl).1
      (generateDocumentationSettle (.fulfilled (.object r))) =
    { s with documentation := r.documentation, repoName := r.repo_name, error := none,
             isLoading := false } := by
  simp [handleGenerateDocumentationSettle, handleGenerateDocumentationBegin,
    generateDocumentationSettle]

/-- C6: no page reachable from a freshly loaded one is loading and holds a
documentation at once. -/
theorem loading_excludes_documentation (base : String) (p : Page) (h : Reachable base p) :
    ¬ (p.app.isLoading = true ∧ p.app.documentation ≠ none) := by
  rintro ⟨hl, hd⟩
  exact hd ((pageInv_reachable base p h).1 hl)

/-- C7: in every reachable page at most one generation call is outstanding, and one
is outstanding exactly while the page is loading; a submit step is possible only
while the form is rendered, and a submit step that starts a call leaves the page
loading with the form not rendered, so that no further submit step is possible
before the call settles. -/
theorem at_most_one_in_flight (base : String) (p : Page) (h : Reachable base p) :
    p.pending.length ≤ 1 ∧
    (p.pending.length = 1 ↔ p.app.isLoading = true) ∧
    ∀ q, step base p .submit = some q →
      formRendered p.app = true ∧
      (q.pending ≠ p.pending →
        q.app.isLoading = true ∧ formRendered q.app = false ∧
        step base q .submit = none ∧ q.pending.length = 1) := by
  have hinv := pageInv_reachable base p h
  refine ⟨?_, ?_, ?_⟩
  · rw [hinv.2]; split <;> simp
  · rw [hinv.2]; split <;> simp_all
  · intro q hq
    have hqinv := pageInv_step base p q .submit hinv hq
    simp only [step] at hq
    split at hq
    · rename_i hf
      refine ⟨hf, fun hne => ?_⟩
      cases hq
      by_cases hv : validateGitHubUrl p.form.repoUrl = true
      · have hq2 := hqinv.2
        simp [submitAction, handleSubmit, hv, handleGenerateDocumentationBegin, formRendered,
          step] at hq2 ⊢
        exact hq2
      · simp only [Bool.not_eq_true] at hv
        simp [submitAction, handleSubmit, hv] at hne
    · cases hq


theorem loading_excludes_documentation_witness :
    Reachable "http://localhost:8000"
      { app := { AppState.initial with isLoading := true },
        form := RepoInputState.initial, storage := [],
        pending := ["https://github.com/axios/axios"],
        requests := [{ method := "POST", url := "http://localhost:8000/api/v1/generate",
                       body := [("repo_url", "https://github.com/axios/axios")] }] } ∧
    ¬ ((true : Bool) = true ∧ (none : Option Documentation) ≠ none) :=
  have hr : Reachable "http://localhost:8000"
      { app := { AppState.initial with isLoading := true },
        form := RepoInputState.initial, storage := [],
        pending := ["https://github.com/axios/axios"],
        requests := [{ method := "POST", url := "http://localhost:8000/api/v1/generate",
                       body := [("repo_url", "https://github.com/axios/axios")] }] } :=
    ⟨[], [.type "https://github.com/axios/axios", .submit], by decide⟩
  ⟨hr, loading_excludes_documentation "http://localhost:8000" _ hr⟩

theorem at_most_one_in_flight_witness :
    Reachable "http://localhost:8000"
      { app := { AppState.initial with
                 documentation := some ⟨"# Hi", "# Mid", "# Adv"⟩, repoName := "express" },
        form := RepoInputState.initial, storage := [],
        pending := [],
        requests := [{ method := "POST", url := "http://localhost:8000/api/v1/generate",
                       body := [("repo_url", "https://github.com/expressjs/express")] }] } ∧
    ([] : List String).length ≤ 1 :=
  have hr : Reachable "http://localhost:8000"
      { app := { AppState.initial with
                 documentation := some ⟨"# Hi", "# Mid", "# Adv"⟩, repoName := "express" },
        form := RepoInputState.initial, storage := [],
        pending := [],
        requests := [{ method := "POST", url := "http://localhost:8000/api/v1/generate",
                       body := [("repo_url", "https://github.com/expressjs/express")] }] } :=
    ⟨[], [.type "https://github.com/expressjs/express", .submit,
          .settle 0 (.fulfilled (.object ⟨some ⟨"# Hi", "# Mid", "# Adv"⟩, "express"⟩))], by decide⟩
  ⟨hr, (at_most_one_in_flight "http://localhost:8000" _ hr).1⟩

/-! ## Dark mode -/

/-- C8: toggling twice, each time on the state the previous toggle left, gives back
the initial dark-mode value; after each toggle the string stored under `darkMode`
is `true` or `false` according to the new value, and the startup read of the
storage gives that value back. -/
theorem toggleDarkMode_twice (s : AppState) (ls : Storage) :
    (toggleDarkMode (toggleDarkMode s ls).1 (toggleDarkMode s ls).2).1.isDarkMode = s.isDarkMode ∧
    (toggleDarkMode s ls).2.getItem "darkMode" =
      some (boolToString (toggleDarkMode s ls).1.isDarkMode) ∧
    (toggleDarkMode (toggleDarkMode s ls).1 (toggleDarkMode s ls).2).2.getItem "darkMode" =
      some (boolToString
        (toggleDarkMode (toggleDarkMode s ls).1 (toggleDarkMode s ls).2).1.isDarkMode) ∧
    loadDarkMode (toggleDarkMode s ls).2 = (toggleDarkMode s ls).1.isDarkMode ∧
    loadDarkMode (toggleDarkMode (toggleDarkMode s ls).1 (toggleDarkMode s ls).2).2 =
      (toggleDarkMode (toggleDarkMode s ls).1 (toggleDarkMode s ls).2).1.isDarkMode := by
  simp only [toggleDarkMode, loadDarkMode, Storage.getItem_setItem, Bool.not_not, true_and]
  cases s.isDarkMode <;> decide

/-! ## Documentation viewer -/

/-- C9: `downloadMarkdown(X)` emits the text stored for tier `X` under the name
`<repoName>-<X>-docs.md`; and along any sequence of tab switches and downloads the
documentation and the repo name of the viewer stay what they were, every file
emitted being the stored text of some tier under that tier's name. -/
theorem downloadMarkdown_exact (d : Documentation) (n : String) (X : Tier)
    (active : Tier) (es : List ViewerEvent) :
    (downloadMarkdown d n X).content = d.get X ∧
    (downloadMarkdown d n X).filename = n ++ "-" ++ X.id ++ "-docs.md" ∧
    (viewerRun ⟨d, n, active⟩ es).1.documentation = d ∧
    (viewerRun ⟨d, n, active⟩ es).1.repoName = n ∧
    (viewerStep ⟨d, n, X⟩ .download).2 = [downloadMarkdown d n X] ∧
    ∀ f ∈ (viewerRun ⟨d, n, active⟩ es).2,
      ∃ Y : Tier, f.content = d.get Y ∧ f.filename = n ++ "-" ++ Y.id ++ "-docs.md" := by
  refine ⟨rfl, rfl, ?_, ?_, rfl, ?_⟩
  · induction es generalizing active with
    | nil => rfl
    | cons e es ih => cases e <;> simp [viewerRun, viewerStep, ih]
  · induction es generalizing active with
    | nil => rfl
    | cons e es ih => cases e <;> simp [viewerRun, viewerStep, ih]
  · induction es generalizing active with
    | nil => simp [viewerRun]
    | cons e es ih =>
      cases e with
      | setActiveTab t =>
        simp only [viewerRun, viewerStep, List.nil_append]
        exact ih t
      | download =>
        simp only [viewerRun, viewerStep, List.singleton_append, List.mem_cons]
        rintro f (rfl | hf)
        · exact ⟨active, rfl, rfl⟩
        · exact ih active f hf

/-- C10 (as stated, refuted): a block declared with the tag `c++` is sent to the
highlighter with language `c`, not with the whole tag. -/
theorem codeRenderer_truncates_tag :
    codeRenderer false ⟨false, some "language-c++", "int x;\n"⟩ =
      .syntaxHighlighter false "c" "int x;" ∧
    codeRenderer false ⟨false, some "language-c++", "int x;\n"⟩ ≠
      .syntaxHighlighter false "c++" "int x;" := by
  decide

/-- C10 (amended): for a non-inline block whose class name is `language-` followed
by a tag that starts with a run `w` of one or more word characters, ending at the
end of the tag or at a character that is not a word character, the renderer
returns the highlighter with language `w` (the whole tag when the tag is made of
word characters only); and for a block without class name it returns a plain
`code` element. -/
theorem codeRenderer_language (dark : Bool) (children : String) (w rest : List Char)
    (hne : w ≠ []) (hw : ∀ c ∈ w, isWordChar c = true)
    (hrest : ∀ c, rest.head? = some c → isWordChar c = false) :
    codeRenderer dark ⟨false, some ("language-" ++ String.mk (w ++ rest)), children⟩ =
      .syntaxHighlighter dark (String.mk w) (stripFinalNewline children) ∧
    (∀ inline, codeRenderer dark ⟨inline, none, children⟩ = .code none children) := by
  constructor
  · have h := execSearch_languagePattern w rest hne hw hrest
    simp only [codeRenderer, Option.getD_some, String.toList, String.data_append]
    rw [show ['l', 'a', 'n', 'g', 'u', 'a', 'g', 'e', '-'] = "language-".toList from rfl, h]
    simp
  · intro inline
    have h0 : execSearch languagePattern [] = none := by decide
    simp [codeRenderer, h0]

theorem codeRenderer_language_witness :
    codeRenderer true ⟨false, some ("language-" ++ String.mk ("python".toList ++ [])),
        "print(1)\n"⟩ =
      .syntaxHighlighter true (String.mk "python".toList) (stripFinalNewline "print(1)\n") ∧
    (∀ inline, codeRenderer true ⟨inline, none, "print(1)\n"⟩ = .code none "print(1)\n") :=
  codeRenderer_language true "print(1)\n" "python".toList [] (by decide) (by decide) (by simp)

end GithubDocAgent
